import Mathlib

/-!
Verification of the nas-media-index repository: a shallow embedding of

  * `src/api.py`  — the range-aware media delivery path (`parse_range`,
    `iter_file_range`, the `/media/{id}` endpoint), and
  * `src/scan.py` — the incremental catalog synchronizer (the per-file
    existence-check-then-upsert pipeline inside `main`, plus `main`'s
    configuration / interruption control flow),

together with theorems settling the frozen claims about the spec.

Conventions of the embedding:
  * Python ints are `Int`; byte counts and list lengths are `Nat`.
  * Python strings are `String` / `List Char`.
  * File bytes are `List Nat` (one `Nat` per byte).
  * Code that can raise an exception which the program does not catch is
    embedded in `Except Unit`: `Except.error ()` marks an exception
    escaping the translated fragment.
  * Resolved filesystem paths are lists of path components, mirroring
    `pathlib.Path.parts` of an absolute path; `Path.resolve()` is an
    environment-supplied Option-valued function (`none` models the
    `FileNotFoundError` that the code catches around `path.resolve()`).
-/

set_option autoImplicit false

/-! ## Python string primitives used by `parse_range` (src/api.py) -/

/-- Model of Python `str.strip()`: drop Unicode whitespace from both ends. -/
def pyStrip (l : List Char) : List Char :=
  ((l.dropWhile Char.isWhitespace).reverse.dropWhile Char.isWhitespace).reverse

/-- Numeric value of an ASCII digit character. -/
def digitVal (c : Char) : Nat := c.toNat - '0'.toNat

/-- Continuation of Python `int()` digit parsing: after at least one digit has
been read, further digits may follow, and a single underscore may separate two
digits (`int("1_0") = 10`, while `"1_"`, `"1__0"` are rejected). -/
def pyDigitsCore : Nat → List Char → Option Nat
  | acc, [] => some acc
  | acc, c :: cs =>
    if c.isDigit then pyDigitsCore (acc * 10 + digitVal c) cs
    else if c = '_' then
      match cs with
      | [] => none
      | d :: cs2 => if d.isDigit then pyDigitsCore (acc * 10 + digitVal d) cs2 else none
    else none

/-- Python `int()` digit-run parsing: a nonempty digit sequence, with single
underscores permitted between digits and no leading underscore. -/
def pyDigits : List Char → Option Nat
  | [] => none
  | c :: cs => if c.isDigit then pyDigitsCore (digitVal c) cs else none

/-- Model of Python `int(s)` on ASCII input: surrounding whitespace is
stripped, an optional single sign is allowed, and the rest must be a valid
digit run; `none` models the `ValueError` raised on malformed input. -/
def pyInt (l : List Char) : Option Int :=
  match pyStrip l with
  | '+' :: rest => (pyDigits rest).map (fun n => (n : Int))
  | '-' :: rest => (pyDigits rest).map (fun n => -(n : Int))
  | s => (pyDigits s).map (fun n => (n : Int))

/-- Model of Python `s.split(sep, 1)` for a one-character separator, reported
as `some (before, after)` on the first occurrence.  `none` means the separator
does not occur, in which case `s.split(sep, 1)` returns a one-element list and
the source's two-variable unpacking `start_s, end_s = spec.split("-", 1)`
raises an uncaught `ValueError`. -/
def splitOnceChar (c : Char) : List Char → Option (List Char × List Char)
  | [] => none
  | x :: xs =>
    if x = c then some ([], xs)
    else (splitOnceChar c xs).map (fun p => (x :: p.1, p.2))

/-! ## `parse_range` (src/api.py lines 26-69) -/

/-- Shallow embedding of `parse_range(range_header, file_size)`.

`Except.ok none` is Python `return None` (invalid/unsupported range);
`Except.ok (some (start, end))` is a successful parse; `Except.error ()` is an
exception escaping the function — which happens exactly when the byte-range
spec contains no `-`, because `spec.split("-", 1)` then yields a single
element and the unpacking on line 43 raises `ValueError` outside the `try`
block. -/
def parse_range (range_header : String) (file_size : Int) :
    Except Unit (Option (Int × Int)) :=
  match range_header.data with
  | 'b' :: 'y' :: 't' :: 'e' :: 's' :: '=' :: rest =>
    let spec := pyStrip rest
    if spec.any (fun c => c == ',') then Except.ok none
    else
      match splitOnceChar '-' spec with
      | none => Except.error ()
      | some (start_s, end_s) =>
        if start_s = [] then
          match pyInt end_s with
          | none => Except.ok none
          | some suffix =>
            if suffix ≤ 0 then Except.ok none
            else Except.ok (some (max (file_size - suffix) 0, file_size - 1))
        else
          match pyInt start_s with
          | none => Except.ok none
          | some start =>
            match (if end_s = [] then some (file_size - 1) else pyInt end_s) with
            | none => Except.ok none
            | some en =>
              if start < 0 ∨ en < start then Except.ok none
              else if file_size ≤ start then Except.ok none
              else Except.ok (some (start, min en (file_size - 1)))
  | _ => Except.ok none

/-! ## `iter_file_range` (src/api.py lines 71-81) -/

/-- The read loop of `iter_file_range`: at read position `pos` with `rem`
bytes still requested, read `min chunkSize rem` bytes, stop on an empty read
(EOF), otherwise yield the chunk and continue.  `fuel` bounds the number of
loop iterations so that the recursion is structural; since every iteration
that continues consumes at least one byte of `rem`, `fuel = rem` is always
sufficient (see `readChunks_fuel`). -/
def readChunks (file : List Nat) : Nat → Nat → Nat → Nat → List (List Nat)
  | 0, _, _, _ => []
  | fuel + 1, pos, rem, chunkSize =>
    if rem = 0 then []
    else
      let chunk := (file.drop pos).take (min chunkSize rem)
      if chunk = [] then []
      else chunk :: readChunks file fuel (pos + chunk.length) (rem - chunk.length) chunkSize

/-- Shallow embedding of `iter_file_range(path, start, end, chunk_size)`:
seek to `start`, then yield chunks of at most `chunk_size` bytes until
`end - start + 1` bytes have been yielded or the file is exhausted.  The
callers in `media` always pass `0 ≤ start`. -/
def iter_file_range (file : List Nat) (start endIncl : Int)
    (chunkSize : Nat := 1024 * 1024) : List (List Nat) :=
  readChunks file (endIncl - start + 1).toNat start.toNat (endIncl - start + 1).toNat chunkSize

/-! ## Paths, the filesystem environment and the `/media/{id}` endpoint -/

/-- A resolved filesystem path, as its list of components. -/
abbrev FsPath := List String

/-- `pathLE a b` holds when component list `a` is an initial segment of `b`
(so the path `a` is `b` itself or an ancestor of it). -/
def pathLE : FsPath → FsPath → Bool
  | [], _ => true
  | _ :: _, [] => false
  | a :: as, b :: bs => a == b && pathLE as bs

/-- All initial segments of a component list, shortest first. -/
def initialSegs : FsPath → List FsPath
  | [] => [[]]
  | a :: as => [] :: (initialSegs as).map (fun q => a :: q)

/-- Model of `pathlib.Path.parents` for a resolved absolute path: every
nonempty proper initial segment of its component list (for `/a/b` these are
`/a` and `/`, i.e. the prefixes `["/", "a"]` and `["/"]` of
`["/", "a", "b"]`). -/
def parents (p : FsPath) : List FsPath :=
  (initialSegs p).filter (fun q => decide (q ≠ []) && decide (q ≠ p))

/-- The filesystem environment the endpoint runs against.
`exists_file p` is `p.exists() and p.is_file()`; `resolve` is
`Path.resolve()`, with `none` modelling a raised `FileNotFoundError`;
`content p` is the byte content on disk, so `p.stat().st_size` is
`(content p).length`. -/
structure FS where
  exists_file : FsPath → Bool
  resolve : FsPath → Option FsPath
  content : FsPath → List Nat

/-- An HTTP response as the claims observe it: status code, the headers the
handler sets explicitly (the content-type negotiation of `media` is not
claim-relevant and is omitted), and the streamed body chunks. -/
structure HttpResponse where
  status : Nat
  headers : List (String × String)
  body : List (List Nat)
deriving Repr, DecidableEq

/-- The bare 404 response raised via `HTTPException(status_code=404)`. -/
def resp404 : HttpResponse := ⟨404, [], []⟩

/-- The bare 403 response raised via `HTTPException(status_code=403)`. -/
def resp403 : HttpResponse := ⟨403, [], []⟩

/-- The confinement step of `media` (src/api.py lines 180-190): when
`SCAN_ROOT` is configured, resolve it (unguarded — a failure there escapes),
resolve the requested path (a `FileNotFoundError` there is caught and turned
into a 404), and reject with 403 unless the resolved path equals the resolved
root or has it among its parents.  `Except.ok none` means the guard passed. -/
def guardResult (fs : FS) (allowed_root : Option FsPath) (path : FsPath) :
    Except Unit (Option HttpResponse) :=
  match allowed_root with
  | none => Except.ok none
  | some ar =>
    match fs.resolve ar with
    | none => Except.error ()
    | some allowed =>
      match fs.resolve path with
      | none => Except.ok (some resp404)
      | some resolved =>
        if resolved ≠ allowed ∧ allowed ∉ parents resolved then Except.ok (some resp403)
        else Except.ok none

/-- Shallow embedding of the `/media/{file_id}` handler (src/api.py lines
163-226).  `row` is the result of the catalog lookup (the `abs_path` of the
row with the requested id, if any); `range` is the `Range` request header.
A `none` or empty `range` is falsy in Python, so both take the full-stream
branch.  `Except.error ()` marks an exception escaping the handler (an
unhandled server error, surfaced as a 500 by the framework). -/
def media (fs : FS) (allowed_root : Option FsPath) (row : Option FsPath)
    (range : Option String) : Except Unit HttpResponse :=
  match row with
  | none => Except.ok resp404
  | some path =>
    if fs.exists_file path = false then Except.ok resp404
    else
      match guardResult fs allowed_root path with
      | Except.error e => Except.error e
      | Except.ok (some r) => Except.ok r
      | Except.ok none =>
        let file_size : Nat := (fs.content path).length
        let full : HttpResponse :=
          ⟨200, [("Accept-Ranges", "bytes"), ("Content-Length", toString file_size)],
            iter_file_range (fs.content path) 0 ((file_size : Int) - 1)⟩
        match range with
        | none => Except.ok full
        | some r =>
          if r = "" then Except.ok full
          else
            match parse_range r (file_size : Int) with
            | Except.error e => Except.error e
            | Except.ok none =>
              Except.ok ⟨416, [("Content-Range", "bytes */" ++ toString file_size)], []⟩
            | Except.ok (some (s, e)) =>
              Except.ok ⟨206,
                [("Accept-Ranges", "bytes"),
                 ("Content-Range",
                  "bytes " ++ toString s ++ "-" ++ toString e ++ "/" ++ toString file_size),
                 ("Content-Length", toString (e - s + 1))],
                iter_file_range (fs.content path) s e⟩

/-! ## The catalog and the synchronizer (src/scan.py) -/

/-- A row of the `files` table.  `mtime` stands for the stored
`timestamptz`; the pipeline only ever compares it for equality, so any type
with decidable equality is a faithful carrier and we use `Int`. -/
structure FileRecord where
  id : Nat
  root : String
  rel_path : String
  abs_path : String
  size_bytes : Int
  mtime : Int
  sha256 : Option String
  last_seen_run_id : Nat
deriving Repr, DecidableEq

/-- One item yielded by the filesystem walk `iter_files`:
`(abs_path, rel_path, size, mtime)`. -/
structure WalkedFile where
  abs_path : String
  rel_path : String
  size : Int
  mtime : Int
deriving Repr, DecidableEq

/-- The mutable state of one synchronizer invocation: the `files` table,
the next id the database would assign on insert, and the two counters of
`main`. -/
structure ScanState where
  files : List FileRecord
  nextId : Nat
  files_seen : Nat
  files_changed : Nat
deriving Repr, DecidableEq

/-- Embedding of the `select_existing` query (src/scan.py line 79):
`SELECT size_bytes, mtime FROM files WHERE abs_path = %s` (the unique
constraint on `abs_path` makes the first match the only one). -/
def selectExisting (db : List FileRecord) (p : String) : Option (Int × Int) :=
  (db.find? (fun r => r.abs_path == p)).map (fun r => (r.size_bytes, r.mtime))

/-- The `DO UPDATE SET` list of the upsert (src/scan.py lines 85-90), applied
to a conflicting row: overwrite root, rel_path, size_bytes, mtime and
last_seen_run_id with the freshly observed values; all other columns (id,
sha256) are untouched. -/
def updateFields (root_name rel_path : String) (size mtime : Int) (run_id : Nat)
    (r : FileRecord) : FileRecord :=
  { r with root := root_name, rel_path := rel_path, size_bytes := size,
           mtime := mtime, last_seen_run_id := run_id }

/-- Embedding of the `upsert` statement (src/scan.py lines 81-91):
`INSERT ... ON CONFLICT (abs_path) DO UPDATE SET ...`.  On conflict the
conflicting row is rewritten by `updateFields`; otherwise a new row is
inserted at the end, with the omitted `sha256` column defaulting to NULL and
a fresh id assigned.  Returns the new table together with the next free
id. -/
def upsert (db : List FileRecord) (nextId : Nat) (root_name rel_path abs_path : String)
    (size mtime : Int) (run_id : Nat) : List FileRecord × Nat :=
  if db.any (fun r => r.abs_path == abs_path) then
    (db.map (fun r =>
      if r.abs_path == abs_path then updateFields root_name rel_path size mtime run_id r
      else r), nextId)
  else
    (db ++ [⟨nextId, root_name, rel_path, abs_path, size, mtime, none, run_id⟩], nextId + 1)

/-- One iteration of the per-file loop in `main` (src/scan.py lines 106-123):
bump `files_seen`, classify the walked file against `select_existing`
(absent, or present with differing size or mtime, increments
`files_changed`), then unconditionally apply the upsert. -/
def processFile (root_name : String) (run_id : Nat) (st : ScanState) (w : WalkedFile) :
    ScanState :=
  let changed :=
    match selectExisting st.files w.abs_path with
    | none => st.files_changed + 1
    | some (prev_size, prev_mtime) =>
      if prev_size ≠ w.size ∨ prev_mtime ≠ w.mtime then st.files_changed + 1
      else st.files_changed
  let up := upsert st.files st.nextId root_name w.rel_path w.abs_path w.size w.mtime run_id
  ⟨up.1, up.2, st.files_seen + 1, changed⟩

/-- The whole per-file pipeline of one synchronizer run over the walked
files, in walk order. -/
def runScan (root_name : String) (run_id : Nat) (ws : List WalkedFile) (st : ScanState) :
    ScanState :=
  ws.foldl (processFile root_name run_id) st

/-- A row of the `scan_runs` table as the claims observe it.
`finished_at = none` is the NULL finish timestamp of a run that was never
finalized; the counter columns are NULL until the finalizing UPDATE. -/
structure ScanRunRow where
  id : Nat
  root : String
  finished_at : Option Unit
  files_seen : Option Nat
  files_changed : Option Nat
deriving Repr, DecidableEq

/-- The observable outcome of one `main()` invocation (src/scan.py lines
42-163): the process exit status, the committed `scan_runs` row for this run
(if one was created), and the committed catalog state. -/
structure MainOutcome where
  exit_code : Nat
  run_row : Option ScanRunRow
  catalog : ScanState
deriving Repr, DecidableEq

/-- Shallow embedding of `main()`'s control flow (src/scan.py lines 42-163).

`db_url` / `scan_root` are the configuration values (`none` models a missing
or empty environment variable, which is falsy in Python);
`scan_root_is_dir` is `root.exists() and root.is_dir()`.  `interrupt_after =
some k` models a `KeyboardInterrupt` delivered between per-file iterations
after `k` files were processed: the handler commits the buffered batch (so
the committed catalog reflects exactly the first `k` files) and returns 130;
the `scan_runs` row is never finalized.  `interrupt_after = none` is an
uninterrupted run: every file is processed, the run row is finalized with
the counters, and `main` returns 0.  Configuration errors return 2 before
the run row is created or any file is touched. -/
def mainModel (db_url scan_root : Option String) (root_name : String)
    (scan_root_is_dir : Bool) (walked : List WalkedFile)
    (interrupt_after : Option Nat) (run_id : Nat)
    (files0 : List FileRecord) (nextId0 : Nat) : MainOutcome :=
  if db_url = none ∨ scan_root = none then
    ⟨2, none, ⟨files0, nextId0, 0, 0⟩⟩
  else if scan_root_is_dir = false then
    ⟨2, none, ⟨files0, nextId0, 0, 0⟩⟩
  else
    let row0 : ScanRunRow := ⟨run_id, root_name, none, none, none⟩
    match interrupt_after with
    | some k =>
      ⟨130, some row0, runScan root_name run_id (walked.take k) ⟨files0, nextId0, 0, 0⟩⟩
    | none =>
      let st := runScan root_name run_id walked ⟨files0, nextId0, 0, 0⟩
      ⟨0, some { row0 with finished_at := some (), files_seen := some st.files_seen,
                           files_changed := some st.files_changed }, st⟩


/-! ## A small concrete environment used to evaluate the claims -/

/-- A concrete resolved path used for concrete evaluations. -/
def demoPath : FsPath := ["/", "media", "movie.mkv"]

/-- A small concrete filesystem with one five-byte file at `demoPath`,
where resolution is the identity (no symlinks). -/
def demoFS : FS where
  exists_file := fun p => p == demoPath
  resolve := fun p => some p
  content := fun p => if p == demoPath then [10, 20, 30, 40, 50] else []

/-! ## Lemmas about the read loop of `iter_file_range` -/

/-- With fuel at least `rem` (and a positive chunk size) the read loop yields
exactly the requested slice of the file, clipped at end of file. -/
theorem readChunks_flatten (file : List Nat) :
    ∀ (fuel pos rem cs : Nat), rem ≤ fuel → 0 < cs →
      (readChunks file fuel pos rem cs).flatten = (file.drop pos).take rem := by
  intro fuel
  induction fuel with
  | zero =>
    intro pos rem cs hle _
    have h0 : rem = 0 := by omega
    subst h0
    simp [readChunks]
  | succ n ih =>
    intro pos rem cs hle hcs
    by_cases h0 : rem = 0
    · subst h0; simp [readChunks]
    · rw [readChunks]
      simp only [if_neg h0]
      by_cases hc : (file.drop pos).take (min cs rem) = []
      · have hdrop : file.drop pos = [] := by
          rcases List.take_eq_nil_iff.mp hc with h | h
          · exfalso; omega
          · exact h
        simp [hc, hdrop]
      · have hlen : ((file.drop pos).take (min cs rem)).length = min (min cs rem) (file.drop pos).length := by
          simp [List.length_take]
        have hpos : 0 < ((file.drop pos).take (min cs rem)).length := by
          cases hq : ((file.drop pos).take (min cs rem)).length with
          | zero => exact absurd (List.length_eq_zero.mp hq) hc
          | succ k => omega
        have hle2 : ((file.drop pos).take (min cs rem)).length ≤ rem := by omega
        rw [if_neg hc, List.flatten_cons,
            ih (pos + ((file.drop pos).take (min cs rem)).length)
               (rem - ((file.drop pos).take (min cs rem)).length) cs (by omega) hcs]
        have hsplit : (file.drop pos).take rem =
            (file.drop pos).take ((file.drop pos).take (min cs rem)).length ++
            (((file.drop pos).drop ((file.drop pos).take (min cs rem)).length).take
              (rem - ((file.drop pos).take (min cs rem)).length)) := by
          rw [← List.take_add]
          congr 1
          omega
        rw [hsplit, List.drop_drop]
        congr 1
        exact List.take_eq_take.mpr (by omega)

/-- Every chunk the read loop yields has at most `cs` bytes. -/
theorem readChunks_chunk_le (file : List Nat) :
    ∀ (fuel pos rem cs : Nat) (c : List Nat),
      c ∈ readChunks file fuel pos rem cs → c.length ≤ cs := by
  intro fuel
  induction fuel with
  | zero =>
    intro pos rem cs c hc
    simp [readChunks] at hc
  | succ n ih =>
    intro pos rem cs c hc
    rw [readChunks] at hc
    by_cases h0 : rem = 0
    · simp [h0] at hc
    · simp only [if_neg h0] at hc
      by_cases hchunk : (file.drop pos).take (min cs rem) = []
      · simp [hchunk] at hc
      · rw [if_neg hchunk] at hc
        rcases List.mem_cons.mp hc with h | h
        · subst h
          have := List.length_take (min cs rem) (file.drop pos)
          omega
        · exact ih _ _ _ _ h

/-- Claim C9: for every interval with `0 ≤ start ≤ end` over a file,
`iter_file_range` yields chunks of at most 1 MiB each; their concatenation is
exactly the file's bytes from offset `start` through `min end (length - 1)`
(so on a premature EOF the sequence just stops, with no error); and the total
number of bytes yielded never exceeds `end - start + 1`. -/
theorem iter_file_range_spec (file : List Nat) (s e : Int)
    (hs : 0 ≤ s) (hse : s ≤ e) :
    (∀ c ∈ iter_file_range file s e, c.length ≤ 1024 * 1024)
    ∧ (iter_file_range file s e).flatten =
        (file.drop s.toNat).take ((min e ((file.length : Int) - 1)) - s + 1).toNat
    ∧ ((iter_file_range file s e).flatten.length : Int) ≤ e - s + 1 := by
  have hflat : (iter_file_range file s e).flatten =
      (file.drop s.toNat).take (e - s + 1).toNat :=
    readChunks_flatten file _ _ _ _ (Nat.le_refl _) (by norm_num)
  refine ⟨fun c hc => readChunks_chunk_le file _ _ _ _ c hc, ?_, ?_⟩
  · rw [hflat, List.take_eq_take]
    have hdl := List.length_drop s.toNat file
    omega
  · rw [hflat]
    have hlt := List.length_take (e - s + 1).toNat (file.drop s.toNat)
    omega

/-- Concrete instantiation of `iter_file_range_spec` with its hypotheses
discharged. -/
theorem iter_file_range_spec_witness :
    (0 : Int) ≤ 2 ∧ (2 : Int) ≤ 8 ∧
    ((∀ c ∈ iter_file_range [0, 1, 2, 3, 4, 5] 2 8, c.length ≤ 1024 * 1024)
     ∧ (iter_file_range [0, 1, 2, 3, 4, 5] 2 8).flatten =
         (([0, 1, 2, 3, 4, 5] : List Nat).drop (2 : Int).toNat).take
           ((min (8 : Int) (((([0, 1, 2, 3, 4, 5] : List Nat).length : Int)) - 1)) - 2 + 1).toNat
     ∧ (((iter_file_range [0, 1, 2, 3, 4, 5] 2 8).flatten.length : Int)) ≤ 8 - 2 + 1) :=
  ⟨by norm_num, by norm_num,
   iter_file_range_spec [0, 1, 2, 3, 4, 5] 2 8 (by norm_num) (by norm_num)⟩

/-! ## The missing-dash bug in `parse_range` -/

/-- Claim C1 (refuted by the code, which contradicts its own docstring):
`parse_range` does NOT return a rejection for every malformed range — a byte
range spec containing no dash (such as `bytes=100`, or the bare `bytes=`)
makes `spec.split("-", 1)` return a single element, so the two-variable
unpacking on src/api.py line 43 raises `ValueError` outside the `try` block.
The exception escapes the `media` endpoint (an unhandled server error), so
such requests do not receive the claimed 416 response. -/
theorem parse_range_no_dash_raises :
    parse_range "bytes=100" 1000 = Except.error ()
    ∧ parse_range "bytes=" 1000 = Except.error ()
    ∧ media demoFS none (some demoPath) (some "bytes=100") = Except.error () :=
  ⟨rfl, rfl, rfl⟩

theorem dropWhile_eq_self_of (p : Char → Bool) (l : List Char)
    (h : ∀ c ∈ l, p c = false) : l.dropWhile p = l := by
  cases l with
  | nil => rfl
  | cons a as =>
    rw [List.dropWhile_cons, h a (List.mem_cons_self a as)]
    simp

theorem pyStrip_eq_self (l : List Char) (h : ∀ c ∈ l, c.isWhitespace = false) :
    pyStrip l = l := by
  unfold pyStrip
  rw [dropWhile_eq_self_of _ _ h, dropWhile_eq_self_of, List.reverse_reverse]
  intro c hc
  exact h c (List.mem_reverse.mp hc)

theorem isDigit_not_whitespace (c : Char) (h : c.isDigit = true) :
    c.isWhitespace = false := by
  by_contra hw
  rw [Bool.not_eq_false] at hw
  simp [Char.isWhitespace] at hw
  rcases hw with ((h1 | h1) | h1) | h1 <;> (subst h1; simp [Char.isDigit] at h)

theorem any_comma_eq_false (t : List Char) (h : ∀ c ∈ t, c.isDigit = true) :
    (('-' :: t).any (fun c => c == ',')) = false := by
  rw [List.any_eq_false]
  intro x hx
  rcases List.mem_cons.mp hx with h1 | h1
  · subst h1; decide
  · intro hx2
    rw [beq_iff_eq] at hx2
    subst hx2
    exact absurd (h _ h1) (by decide)

theorem splitOnceChar_dash_cons (t : List Char) :
    splitOnceChar '-' ('-' :: t) = some ([], t) := by
  simp [splitOnceChar]

theorem parse_range_suffix_form (t : List Char) (n fs : Int)
    (hd : ∀ c ∈ t, c.isDigit = true) (hn : pyInt t = some n) :
    parse_range ⟨'b' :: 'y' :: 't' :: 'e' :: 's' :: '=' :: '-' :: t⟩ fs =
      (if n ≤ 0 then Except.ok none
       else Except.ok (some (max (fs - n) 0, fs - 1))) := by
  have hws : ∀ c ∈ '-' :: t, c.isWhitespace = false := by
    intro c hc
    rcases List.mem_cons.mp hc with h1 | h1
    · subst h1; decide
    · exact isDigit_not_whitespace c (hd c h1)
  have hstrip : pyStrip ('-' :: t) = '-' :: t := pyStrip_eq_self _ hws
  unfold parse_range
  simp only [hstrip, any_comma_eq_false t hd, splitOnceChar_dash_cons, hn]
  rfl

theorem parse_range_end_le (header : String) (fs s e : Int)
    (h : parse_range header fs = Except.ok (some (s, e))) : e ≤ fs - 1 := by
  unfold parse_range at h
  split at h
  · simp only [] at h
    split at h
    · simp at h
    · split at h
      · simp at h
      · split at h
        · split at h
          · simp at h
          · split at h
            · simp at h
            · simp only [Except.ok.injEq, Option.some.injEq, Prod.mk.injEq] at h
              omega
        · split at h
          · simp at h
          · split at h
            · simp at h
            · split at h
              · simp at h
              · split at h
                · simp at h
                · simp only [Except.ok.injEq, Option.some.injEq, Prod.mk.injEq] at h
                  omega
  · exact Option.noConfusion (Except.ok.inj h)

theorem media_200 (fs : FS) (ar : Option FsPath) (path : FsPath) (range : Option String)
    (hex : fs.exists_file path = true)
    (hguard : guardResult fs ar path = Except.ok none)
    (hr : range = none ∨ range = some "") :
    media fs ar (some path) range =
      Except.ok ⟨200,
        [("Accept-Ranges", "bytes"), ("Content-Length", toString (fs.content path).length)],
        iter_file_range (fs.content path) 0 (((fs.content path).length : Int) - 1)⟩ := by
  rcases hr with rfl | rfl <;>
    simp only [media, hex, hguard, Bool.true_eq_false, if_false, if_neg, ite_false, reduceIte]

theorem media_416 (fs : FS) (ar : Option FsPath) (path : FsPath) (r : String)
    (hex : fs.exists_file path = true)
    (hguard : guardResult fs ar path = Except.ok none)
    (hr : r ≠ "")
    (hp : parse_range r ((fs.content path).length : Int) = Except.ok none) :
    media fs ar (some path) (some r) =
      Except.ok ⟨416, [("Content-Range", "bytes */" ++ toString (fs.content path).length)], []⟩ := by
  simp only [media, hex, hguard, Bool.true_eq_false, reduceIte, if_neg hr, hp]

theorem media_206 (fs : FS) (ar : Option FsPath) (path : FsPath) (r : String) (s e : Int)
    (hex : fs.exists_file path = true)
    (hguard : guardResult fs ar path = Except.ok none)
    (hr : r ≠ "")
    (hp : parse_range r ((fs.content path).length : Int) = Except.ok (some (s, e))) :
    media fs ar (some path) (some r) =
      Except.ok ⟨206,
        [("Accept-Ranges", "bytes"),
         ("Content-Range",
          "bytes " ++ toString s ++ "-" ++ toString e ++ "/" ++ toString (fs.content path).length),
         ("Content-Length", toString (e - s + 1))],
        iter_file_range (fs.content path) s e⟩ := by
  simp only [media, hex, hguard, Bool.true_eq_false, reduceIte, if_neg hr, hp]

/-- Claim C3: the documented parse table at total size 1000; plus the general
suffix rules (suffix must be positive, start clamps to 0 when the suffix
exceeds the size) and the general end-clamp rule (every accepted parse has
`end ≤ size - 1`). -/
theorem parse_range_table :
    parse_range "bytes=0-99" 1000 = Except.ok (some (0, 99))
    ∧ parse_range "bytes=500-" 1000 = Except.ok (some (500, 999))
    ∧ parse_range "bytes=-100" 1000 = Except.ok (some (900, 999))
    ∧ parse_range "bytes=2000-3000" 1000 = Except.ok none
    ∧ parse_range "bytes=100-50" 1000 = Except.ok none
    ∧ parse_range "bytes=0-10,20-30" 1000 = Except.ok none
    ∧ (∀ (t : List Char) (n fs : Int), (∀ c ∈ t, c.isDigit = true) →
         pyInt t = some n → n ≤ 0 →
         parse_range ⟨'b' :: 'y' :: 't' :: 'e' :: 's' :: '=' :: '-' :: t⟩ fs =
           Except.ok none)
    ∧ (∀ (t : List Char) (n fs : Int), (∀ c ∈ t, c.isDigit = true) →
         pyInt t = some n → 0 < n → fs < n →
         parse_range ⟨'b' :: 'y' :: 't' :: 'e' :: 's' :: '=' :: '-' :: t⟩ fs =
           Except.ok (some (0, fs - 1)))
    ∧ (∀ (header : String) (fs s e : Int),
         parse_range header fs = Except.ok (some (s, e)) → e ≤ fs - 1) := by
  refine ⟨rfl, rfl, rfl, rfl, rfl, rfl, ?_, ?_, ?_⟩
  · intro t n fs hd hn hle
    rw [parse_range_suffix_form t n fs hd hn, if_pos hle]
  · intro t n fs hd hn hpos hlt
    rw [parse_range_suffix_form t n fs hd hn, if_neg (by omega)]
    have hmax : max (fs - n) 0 = 0 := by omega
    rw [hmax]
  · intro header fs s e h
    exact parse_range_end_le header fs s e h

/-- Concrete instantiation of the universally quantified parts of
`parse_range_table` with the hypotheses discharged: the suffix `bytes=-2000`
against a 1000-byte resource clamps its start to 0. -/
theorem parse_range_table_witness :
    (∀ c ∈ "2000".data, c.isDigit = true) ∧ pyInt "2000".data = some 2000
    ∧ (0 : Int) < 2000 ∧ (1000 : Int) < 2000
    ∧ parse_range ⟨'b' :: 'y' :: 't' :: 'e' :: 's' :: '=' :: '-' :: "2000".data⟩ 1000 =
        Except.ok (some (0, 999)) :=
  ⟨by decide, rfl, by norm_num, by norm_num,
   parse_range_table.2.2.2.2.2.2.2.1 "2000".data 2000 1000 (by decide) rfl
     (by norm_num) (by norm_num)⟩

/-- Claim C10: with a total size of 0, every suffix specification `bytes=-N`
with `N > 0` is not rejected but parses to the pair `(0, -1)` (the suffix
branch returns before the `start < file_size` check), and the endpoint then
answers 206 with `Content-Range: bytes 0--1/0` and `Content-Length: 0`. -/
theorem parse_range_zero_size_suffix (t : List Char) (n : Int)
    (hd : ∀ c ∈ t, c.isDigit = true) (hn : pyInt t = some n) (hpos : 0 < n) :
    parse_range ⟨'b' :: 'y' :: 't' :: 'e' :: 's' :: '=' :: '-' :: t⟩ 0 =
      Except.ok (some (0, -1))
    ∧ ∀ (fs : FS) (path : FsPath),
        fs.exists_file path = true → fs.content path = [] →
        media fs none (some path)
            (some ⟨'b' :: 'y' :: 't' :: 'e' :: 's' :: '=' :: '-' :: t⟩) =
          Except.ok ⟨206,
            [("Accept-Ranges", "bytes"), ("Content-Range", "bytes 0--1/0"),
             ("Content-Length", "0")], []⟩ := by
  have hparse : parse_range ⟨'b' :: 'y' :: 't' :: 'e' :: 's' :: '=' :: '-' :: t⟩ (0 : Int) =
      Except.ok (some (0, -1)) := by
    rw [parse_range_suffix_form t n 0 hd hn, if_neg (by omega)]
    have hmax : max ((0 : Int) - n) 0 = 0 := by omega
    rw [hmax]
    norm_num
  refine ⟨hparse, ?_⟩
  intro fs path hex hcont
  have hr : (⟨'b' :: 'y' :: 't' :: 'e' :: 's' :: '=' :: '-' :: t⟩ : String) ≠ "" := by
    intro h
    have hdata := congrArg String.data h
    simp at hdata
  have hp : parse_range (⟨'b' :: 'y' :: 't' :: 'e' :: 's' :: '=' :: '-' :: t⟩ : String)
      (((fs.content path).length : Nat) : Int) = Except.ok (some (0, -1)) := by
    rw [hcont]
    exact hparse
  have h206 := media_206 fs none path _ 0 (-1) hex rfl hr hp
  rw [hcont] at h206
  rw [h206]
  exact rfl

/-- Concrete instantiation of `parse_range_zero_size_suffix` (`bytes=-100`)
with its hypotheses discharged. -/
theorem parse_range_zero_size_suffix_witness :
    (∀ c ∈ "100".data, c.isDigit = true) ∧ pyInt "100".data = some 100 ∧ (0 : Int) < 100
    ∧ (parse_range ⟨'b' :: 'y' :: 't' :: 'e' :: 's' :: '=' :: '-' :: "100".data⟩ 0 =
         Except.ok (some (0, -1))
       ∧ ∀ (fs : FS) (path : FsPath),
           fs.exists_file path = true → fs.content path = [] →
           media fs none (some path)
               (some ⟨'b' :: 'y' :: 't' :: 'e' :: 's' :: '=' :: '-' :: "100".data⟩) =
             Except.ok ⟨206,
               [("Accept-Ranges", "bytes"), ("Content-Range", "bytes 0--1/0"),
                ("Content-Length", "0")], []⟩) :=
  ⟨by decide, rfl, by norm_num,
   parse_range_zero_size_suffix "100".data 100 (by decide) rfl (by norm_num)⟩

/-- Claim C5: on an existing, confined, on-disk file, a request without a
Range header gets a 200 with `Accept-Ranges: bytes` and `Content-Length`
equal to the full size, and a request whose Range header parses to `(s, e)`
gets a 206 with `Content-Range: bytes s-e/total` and `Content-Length` equal
to `e - s + 1`. -/
theorem media_success_statuses (fs : FS) (ar : Option FsPath) (path : FsPath)
    (hex : fs.exists_file path = true)
    (hguard : guardResult fs ar path = Except.ok none) :
    (∃ resp, media fs ar (some path) none = Except.ok resp
       ∧ resp.status = 200
       ∧ ("Accept-Ranges", "bytes") ∈ resp.headers
       ∧ ("Content-Length", toString (fs.content path).length) ∈ resp.headers)
    ∧ ∀ (r : String) (s e : Int),
        parse_range r ((fs.content path).length : Int) = Except.ok (some (s, e)) →
        ∃ resp, media fs ar (some path) (some r) = Except.ok resp
          ∧ resp.status = 206
          ∧ ("Content-Range",
              "bytes " ++ toString s ++ "-" ++ toString e ++ "/"
                ++ toString (fs.content path).length) ∈ resp.headers
          ∧ ("Content-Length", toString (e - s + 1)) ∈ resp.headers := by
  constructor
  · exact ⟨_, media_200 fs ar path none hex hguard (Or.inl rfl), rfl, by simp, by simp⟩
  · intro r s e hp
    have hr : r ≠ "" := by
      intro h
      subst h
      rw [show parse_range "" ((fs.content path).length : Int) = Except.ok none from rfl] at hp
      exact Option.noConfusion (Except.ok.inj hp)
    exact ⟨_, media_206 fs ar path r s e hex hguard hr hp, rfl, by simp, by simp⟩

/-- Concrete instantiation of `media_success_statuses` on the demo
filesystem with its hypotheses discharged. -/
theorem media_success_statuses_witness :
    demoFS.exists_file demoPath = true
    ∧ guardResult demoFS none demoPath = Except.ok none
    ∧ ((∃ resp, media demoFS none (some demoPath) none = Except.ok resp
          ∧ resp.status = 200
          ∧ ("Accept-Ranges", "bytes") ∈ resp.headers
          ∧ ("Content-Length", toString (demoFS.content demoPath).length) ∈ resp.headers)
       ∧ ∀ (r : String) (s e : Int),
           parse_range r ((demoFS.content demoPath).length : Int) = Except.ok (some (s, e)) →
           ∃ resp, media demoFS none (some demoPath) (some r) = Except.ok resp
             ∧ resp.status = 206
             ∧ ("Content-Range",
                 "bytes " ++ toString s ++ "-" ++ toString e ++ "/"
                   ++ toString (demoFS.content demoPath).length) ∈ resp.headers
             ∧ ("Content-Length", toString (e - s + 1)) ∈ resp.headers) :=
  ⟨rfl, rfl, media_success_statuses demoFS none demoPath rfl rfl⟩

theorem mem_initialSegs (q p : FsPath) : q ∈ initialSegs p ↔ pathLE q p = true := by
  induction p generalizing q with
  | nil =>
    cases q <;> simp [initialSegs, pathLE]
  | cons a as ih =>
    cases q with
    | nil => simp [initialSegs, pathLE]
    | cons b bs =>
      simp only [initialSegs, List.mem_cons, List.mem_map, pathLE, Bool.and_eq_true, beq_iff_eq]
      constructor
      · rintro (h | ⟨x, hx, hax⟩)
        · exact absurd h (by simp)
        · injection hax with h1 h2
          exact ⟨h1.symm, (ih bs).mp (h2 ▸ hx)⟩
      · rintro ⟨hba, hle⟩
        exact Or.inr ⟨bs, (ih bs).mpr hle, by rw [hba]⟩

theorem mem_parents_iff (q p : FsPath) :
    q ∈ parents p ↔ (q ≠ [] ∧ q ≠ p ∧ pathLE q p = true) := by
  unfold parents
  rw [List.mem_filter, mem_initialSegs]
  simp only [Bool.and_eq_true, decide_eq_true_eq]
  tauto

theorem media_parse_error (fs : FS) (ar : Option FsPath) (path : FsPath) (r : String)
    (hex : fs.exists_file path = true)
    (hguard : guardResult fs ar path = Except.ok none)
    (hr : r ≠ "")
    (hp : parse_range r ((fs.content path).length : Int) = Except.error ()) :
    media fs ar (some path) (some r) = Except.error () := by
  simp only [media, hex, hguard, Bool.true_eq_false, reduceIte, if_neg hr, hp]

theorem media_ne_resp403 (fs : FS) (ar : Option FsPath) (path : FsPath) (range : Option String)
    (hex : fs.exists_file path = true)
    (hguard : guardResult fs ar path = Except.ok none) :
    media fs ar (some path) range ≠ Except.ok resp403 := by
  cases range with
  | none =>
    rw [media_200 fs ar path none hex hguard (Or.inl rfl)]
    intro h
    simp [resp403] at h
  | some r =>
    by_cases hr : r = ""
    · subst hr
      rw [media_200 fs ar path (some "") hex hguard (Or.inr rfl)]
      intro h
      simp [resp403] at h
    · cases hp : parse_range r ((fs.content path).length : Int) with
      | error e =>
        cases e
        rw [media_parse_error fs ar path r hex hguard hr hp]
        intro h
        exact Except.noConfusion h
      | ok o =>
        cases o with
        | none =>
          rw [media_416 fs ar path r hex hguard hr hp]
          intro h
          simp [resp403] at h
        | some pr =>
          obtain ⟨s, e⟩ := pr
          rw [media_206 fs ar path r s e hex hguard hr hp]
          intro h
          simp [resp403] at h

theorem media_of_guard_some (fs : FS) (ar : Option FsPath) (path : FsPath)
    (r' : HttpResponse) (range : Option String)
    (hex : fs.exists_file path = true)
    (hg : guardResult fs ar path = Except.ok (some r')) :
    media fs ar (some path) range = Except.ok r' := by
  simp only [media, hex, Bool.true_eq_false, reduceIte, hg]

/-- Claim C4: the on-disk existence check returns 404 before any confinement
work; with a configured allowed root (whose resolution and the path's
resolution succeed) the endpoint answers 403 exactly when the resolved path
neither equals the resolved root nor has it as a strict ancestor; and with no
allowed root configured the resolver is never consulted at all. -/
theorem media_confinement (fs : FS) (ar : Option FsPath) (path : FsPath)
    (range : Option String) :
    (fs.exists_file path = false → media fs ar (some path) range = Except.ok resp404)
    ∧ (∀ (arPath allowedR resolvedP : FsPath),
        fs.exists_file path = true →
        fs.resolve arPath = some allowedR → fs.resolve path = some resolvedP →
        (media fs (some arPath) (some path) range = Except.ok resp403 ↔
          ¬ (resolvedP = allowedR ∨
              (allowedR ≠ [] ∧ allowedR ≠ resolvedP ∧ pathLE allowedR resolvedP = true))))
    ∧ (∀ g : FsPath → Option FsPath,
        media { fs with resolve := g } none (some path) range =
          media fs none (some path) range) := by
  refine ⟨?_, ?_, ?_⟩
  · intro h
    simp only [media, h, reduceIte]
  · intro arPath allowedR resolvedP hex hra hrp
    have hgr0 : guardResult fs (some arPath) path =
        (if resolvedP ≠ allowedR ∧ allowedR ∉ parents resolvedP
         then Except.ok (some resp403) else Except.ok none) := by
      simp only [guardResult, hra, hrp]
    by_cases hcond : resolvedP ≠ allowedR ∧ allowedR ∉ parents resolvedP
    · rw [if_pos hcond] at hgr0
      constructor
      · intro _
        rintro (hEq | ⟨hne, hnp, hle⟩)
        · exact hcond.1 hEq
        · exact hcond.2 ((mem_parents_iff allowedR resolvedP).mpr ⟨hne, hnp, hle⟩)
      · intro _
        exact media_of_guard_some fs (some arPath) path resp403 range hex hgr0
    · rw [if_neg hcond] at hgr0
      rw [not_and_or, not_not] at hcond
      constructor
      · intro h403
        exact absurd h403 (media_ne_resp403 fs (some arPath) path range hex hgr0)
      · intro hnot
        exfalso
        apply hnot
        rcases hcond with h | h
        · exact Or.inl h
        · have hm := (mem_parents_iff allowedR resolvedP).mp (not_not.mp h)
          exact Or.inr ⟨hm.1, hm.2.1, hm.2.2⟩
  · intro g
    rfl

/-- Concrete instantiation of `media_confinement`'s confinement clause with
its hypotheses discharged: a path outside the allowed root draws a 403. -/
theorem media_confinement_witness :
    demoFS.exists_file demoPath = true
    ∧ demoFS.resolve ["/", "other"] = some ["/", "other"]
    ∧ demoFS.resolve demoPath = some demoPath
    ∧ (media demoFS (some ["/", "other"]) (some demoPath) none = Except.ok resp403 ↔
        ¬ (demoPath = ["/", "other"] ∨
            ((["/", "other"] : FsPath) ≠ [] ∧ (["/", "other"] : FsPath) ≠ demoPath
              ∧ pathLE ["/", "other"] demoPath = true))) :=
  ⟨rfl, rfl, rfl,
   (media_confinement demoFS none demoPath none).2.1 ["/", "other"] ["/", "other"] demoPath
     rfl rfl rfl⟩

/-! ## Lemmas about the catalog pipeline -/

theorem updateFields_abs_path (rn rel : String) (sz mt : Int) (rid : Nat) (r : FileRecord) :
    (updateFields rn rel sz mt rid r).abs_path = r.abs_path := rfl

theorem find?_append_of_none {α : Type} (p : α → Bool) (l1 l2 : List α)
    (h : l1.find? p = none) : (l1 ++ l2).find? p = l2.find? p := by
  induction l1 with
  | nil => rfl
  | cons a as ih =>
    rw [List.find?_cons] at h
    cases hp : p a with
    | true => rw [hp] at h; exact Option.noConfusion h
    | false =>
      rw [hp] at h
      rw [List.cons_append, List.find?_cons_of_neg _ (by simp [hp]), ih h]

theorem find?_append_of_some {α : Type} (p : α → Bool) (l1 l2 : List α) (a : α)
    (h : l1.find? p = some a) : (l1 ++ l2).find? p = some a := by
  induction l1 with
  | nil => exact Option.noConfusion h
  | cons b bs ih =>
    rw [List.find?_cons] at h
    cases hp : p b with
    | true =>
      rw [hp] at h
      rw [List.cons_append, List.find?_cons_of_pos _ hp]
      exact h
    | false =>
      rw [hp] at h
      rw [List.cons_append, List.find?_cons_of_neg _ (by simp [hp])]
      exact ih h

theorem find?_map_update_self (rn rel abs : String) (sz mt : Int) (rid : Nat) :
    ∀ db : List FileRecord, db.any (fun r => r.abs_path == abs) = true →
    ∃ r, ((db.map (fun r =>
            if r.abs_path == abs then updateFields rn rel sz mt rid r else r)).find?
            (fun r => r.abs_path == abs)) = some r
      ∧ r.root = rn ∧ r.rel_path = rel ∧ r.abs_path = abs ∧ r.size_bytes = sz
      ∧ r.mtime = mt ∧ r.last_seen_run_id = rid := by
  intro db
  induction db with
  | nil => intro h; simp at h
  | cons a as ih =>
    intro hany
    by_cases ha : (a.abs_path == abs) = true
    · refine ⟨updateFields rn rel sz mt rid a, ?_, rfl, rfl, ?_, rfl, rfl, rfl⟩
      · rw [List.map_cons, if_pos ha,
          List.find?_cons_of_pos (p := fun r : FileRecord => r.abs_path == abs) _
            (by simpa [updateFields_abs_path] using ha)]
      · rw [updateFields_abs_path]
        exact beq_iff_eq.mp ha
    · rw [List.map_cons, if_neg ha,
        List.find?_cons_of_neg (p := fun r : FileRecord => r.abs_path == abs) _ ha]
      apply ih
      rw [List.any_cons] at hany
      simpa [ha] using hany

theorem find?_upsert_self (db : List FileRecord) (nid : Nat) (rn rel abs : String)
    (sz mt : Int) (rid : Nat) :
    ∃ r, ((upsert db nid rn rel abs sz mt rid).1.find? (fun r => r.abs_path == abs)) = some r
      ∧ r.root = rn ∧ r.rel_path = rel ∧ r.abs_path = abs ∧ r.size_bytes = sz
      ∧ r.mtime = mt ∧ r.last_seen_run_id = rid := by
  unfold upsert
  by_cases hany : db.any (fun r => r.abs_path == abs) = true
  · rw [if_pos hany]
    exact find?_map_update_self rn rel abs sz mt rid db hany
  · rw [if_neg hany]
    have hfalse : db.any (fun r => r.abs_path == abs) = false := by
      cases h2 : db.any (fun r => r.abs_path == abs) with
      | false => rfl
      | true => exact absurd h2 hany
    have hnone : db.find? (fun r => r.abs_path == abs) = none := by
      rw [List.find?_eq_none]
      exact List.any_eq_false.mp hfalse
    refine ⟨⟨nid, rn, rel, abs, sz, mt, none, rid⟩, ?_, rfl, rfl, rfl, rfl, rfl, rfl⟩
    rw [find?_append_of_none _ _ _ hnone,
      List.find?_cons_of_pos (p := fun r : FileRecord => r.abs_path == abs) _ (by simp)]

theorem find?_map_update_other (rn rel abs p : String) (sz mt : Int) (rid : Nat)
    (hp : p ≠ abs) (db : List FileRecord) :
    ((db.map (fun r =>
        if r.abs_path == abs then updateFields rn rel sz mt rid r else r)).find?
        (fun r => r.abs_path == p)) = db.find? (fun r => r.abs_path == p) := by
  induction db with
  | nil => rfl
  | cons a as ih =>
    rw [List.map_cons]
    by_cases ha : (a.abs_path == abs) = true
    · rw [if_pos ha]
      have hap : (a.abs_path == p) = false := by
        rw [beq_iff_eq] at ha
        rw [beq_eq_false_iff_ne, ha]
        exact fun h => hp h.symm
      rw [List.find?_cons_of_neg (p := fun r : FileRecord => r.abs_path == p) _
          (by simpa [updateFields_abs_path] using hap),
        List.find?_cons_of_neg (p := fun r : FileRecord => r.abs_path == p) _ (by simp [hap]),
        ih]
    · rw [if_neg ha]
      by_cases hap : (a.abs_path == p) = true
      · rw [List.find?_cons_of_pos (p := fun r : FileRecord => r.abs_path == p) _ hap,
          List.find?_cons_of_pos (p := fun r : FileRecord => r.abs_path == p) _ hap]
      · rw [List.find?_cons_of_neg (p := fun r : FileRecord => r.abs_path == p) _ hap,
          List.find?_cons_of_neg (p := fun r : FileRecord => r.abs_path == p) _ hap,
          ih]

theorem find?_upsert_other (db : List FileRecord) (nid : Nat) (rn rel abs p : String)
    (sz mt : Int) (rid : Nat) (hp : p ≠ abs) :
    ((upsert db nid rn rel abs sz mt rid).1.find? (fun r => r.abs_path == p)) =
      db.find? (fun r => r.abs_path == p) := by
  unfold upsert
  by_cases hany : db.any (fun r => r.abs_path == abs) = true
  · rw [if_pos hany]
    exact find?_map_update_other rn rel abs p sz mt rid hp db
  · rw [if_neg hany]
    cases hfind : db.find? (fun r => r.abs_path == p) with
    | some a => exact find?_append_of_some _ _ _ _ hfind
    | none =>
      rw [find?_append_of_none _ _ _ hfind,
        List.find?_cons_of_neg (p := fun r : FileRecord => r.abs_path == p) _
          (by simp; exact fun h => hp h.symm)]
      rfl

theorem selectExisting_upsert_self (db : List FileRecord) (nid : Nat) (rn rel abs : String)
    (sz mt : Int) (rid : Nat) :
    selectExisting (upsert db nid rn rel abs sz mt rid).1 abs = some (sz, mt) := by
  obtain ⟨r, hr, _, _, _, hsz, hmt, _⟩ := find?_upsert_self db nid rn rel abs sz mt rid
  unfold selectExisting
  rw [hr]
  simp [hsz, hmt]

theorem selectExisting_upsert_other (db : List FileRecord) (nid : Nat) (rn rel abs p : String)
    (sz mt : Int) (rid : Nat) (hp : p ≠ abs) :
    selectExisting (upsert db nid rn rel abs sz mt rid).1 p = selectExisting db p := by
  unfold selectExisting
  rw [find?_upsert_other db nid rn rel abs p sz mt rid hp]

theorem upsert_paths (db : List FileRecord) (nid : Nat) (rn rel abs : String)
    (sz mt : Int) (rid : Nat) :
    (upsert db nid rn rel abs sz mt rid).1.map (fun r => r.abs_path) =
      (if db.any (fun r => r.abs_path == abs) then
        db.map (fun r => r.abs_path)
      else db.map (fun r => r.abs_path) ++ [abs]) := by
  unfold upsert
  by_cases hany : db.any (fun r => r.abs_path == abs) = true
  · rw [if_pos hany, if_pos hany, List.map_map]
    refine List.map_congr_left ?_
    intro a _
    simp only [Function.comp]
    by_cases ha : (a.abs_path == abs) = true
    · rw [if_pos ha, updateFields_abs_path]
    · rw [if_neg ha]
  · rw [if_neg hany, if_neg hany, List.map_append]
    rfl

theorem notMem_paths_of_any_false (db : List FileRecord) (abs : String)
    (h : db.any (fun r => r.abs_path == abs) = false) :
    abs ∉ db.map (fun r => r.abs_path) := by
  intro hmem
  obtain ⟨r, hr, hre⟩ := List.mem_map.mp hmem
  have := List.any_eq_false.mp h r hr
  rw [hre] at this
  simp at this

theorem upsert_nodup (db : List FileRecord) (nid : Nat) (rn rel abs : String)
    (sz mt : Int) (rid : Nat)
    (h : (db.map (fun r => r.abs_path)).Nodup) :
    ((upsert db nid rn rel abs sz mt rid).1.map (fun r => r.abs_path)).Nodup := by
  rw [upsert_paths]
  by_cases hany : db.any (fun r => r.abs_path == abs) = true
  · rw [if_pos hany]
    exact h
  · rw [if_neg hany]
    rw [(List.perm_append_singleton abs (db.map (fun r => r.abs_path))).nodup_iff,
      List.nodup_cons]
    exact ⟨notMem_paths_of_any_false db abs (by simpa using hany), h⟩

theorem selectExisting_some_mem (db : List FileRecord) (p : String) (v : Int × Int)
    (h : selectExisting db p = some v) : p ∈ db.map (fun r => r.abs_path) := by
  unfold selectExisting at h
  cases hf : db.find? (fun r => r.abs_path == p) with
  | none => rw [hf] at h; exact Option.noConfusion h
  | some r =>
    have hmem := List.mem_of_find?_eq_some hf
    have hpr := List.find?_some hf
    rw [beq_iff_eq] at hpr
    exact List.mem_map.mpr ⟨r, hmem, hpr⟩

theorem runScan_cons (rn : String) (rid : Nat) (w : WalkedFile) (ws : List WalkedFile)
    (st : ScanState) :
    runScan rn rid (w :: ws) st = runScan rn rid ws (processFile rn rid st w) := rfl

theorem processFile_files (rn : String) (rid : Nat) (st : ScanState) (w : WalkedFile) :
    (processFile rn rid st w).files =
      (upsert st.files st.nextId rn w.rel_path w.abs_path w.size w.mtime rid).1 := rfl

theorem runScan_select_untouched (rn : String) (rid : Nat) (p : String) :
    ∀ (ws : List WalkedFile) (st : ScanState), p ∉ ws.map (fun w => w.abs_path) →
      selectExisting (runScan rn rid ws st).files p = selectExisting st.files p := by
  intro ws
  induction ws with
  | nil => intro st _; rfl
  | cons w rest ih =>
    intro st hp
    rw [List.map_cons, List.mem_cons] at hp
    push_neg at hp
    rw [runScan_cons, ih _ hp.2, processFile_files,
      selectExisting_upsert_other _ _ _ _ _ _ _ _ _ hp.1]

theorem runScan_select_walked (rn : String) (rid : Nat) :
    ∀ (ws : List WalkedFile) (st : ScanState),
      (ws.map (fun w => w.abs_path)).Nodup →
      ∀ w ∈ ws, selectExisting (runScan rn rid ws st).files w.abs_path =
        some (w.size, w.mtime) := by
  intro ws
  induction ws with
  | nil => intro st _ w hw; exact absurd hw (List.not_mem_nil w)
  | cons w0 rest ih =>
    intro st hnd w hw
    rw [List.map_cons, List.nodup_cons] at hnd
    rcases List.mem_cons.mp hw with rfl | hw'
    · rw [runScan_cons, runScan_select_untouched rn rid _ rest _ hnd.1,
        processFile_files, selectExisting_upsert_self]
    · exact ih (processFile rn rid st w0) hnd.2 w hw'

theorem runScan_changed_const (rn : String) (rid : Nat) :
    ∀ (ws : List WalkedFile) (st : ScanState),
      (∀ w ∈ ws, selectExisting st.files w.abs_path = some (w.size, w.mtime)) →
      (runScan rn rid ws st).files_changed = st.files_changed := by
  intro ws
  induction ws with
  | nil => intro st _; rfl
  | cons w0 rest ih =>
    intro st hall
    have h0 := hall w0 (List.mem_cons_self w0 rest)
    rw [runScan_cons]
    have hchanged : (processFile rn rid st w0).files_changed = st.files_changed := by
      unfold processFile
      rw [h0]
      simp
    rw [ih (processFile rn rid st w0) ?_, hchanged]
    intro w hw
    by_cases hsame : w.abs_path = w0.abs_path
    · have h1 := hall w (List.mem_cons_of_mem w0 hw)
      rw [hsame] at h1
      rw [h0] at h1
      have h2 := Option.some.inj h1
      rw [processFile_files, hsame, selectExisting_upsert_self]
      rw [Prod.mk.injEq] at h2
      rw [h2.1, h2.2]
    · rw [processFile_files, selectExisting_upsert_other _ _ _ _ _ _ _ _ _ hsame]
      exact hall w (List.mem_cons_of_mem w0 hw)

theorem runScan_nodup (rn : String) (rid : Nat) :
    ∀ (ws : List WalkedFile) (st : ScanState),
      (st.files.map (fun r => r.abs_path)).Nodup →
      ((runScan rn rid ws st).files.map (fun r => r.abs_path)).Nodup := by
  intro ws
  induction ws with
  | nil => intro st h; exact h
  | cons w rest ih =>
    intro st h
    rw [runScan_cons]
    exact ih _ (by rw [processFile_files]; exact upsert_nodup _ _ _ _ _ _ _ _ h)

/-- Claim C2: over walked files with pairwise distinct absolute paths and a
catalog without duplicate paths, the first run leaves the catalog
duplicate-free with exactly one row per walked path; a second run over the
same unchanged walked files reports a files-changed count of 0 and again
leaves exactly one row per walked path. -/
theorem scan_idempotent (rn : String) (rid1 rid2 : Nat) (ws : List WalkedFile)
    (files0 : List FileRecord) (nid0 : Nat)
    (hws : (ws.map (fun w => w.abs_path)).Nodup)
    (hdb : (files0.map (fun r => r.abs_path)).Nodup) :
    ((runScan rn rid1 ws ⟨files0, nid0, 0, 0⟩).files.map (fun r => r.abs_path)).Nodup
    ∧ (∀ w ∈ ws,
        ((runScan rn rid1 ws ⟨files0, nid0, 0, 0⟩).files.map (fun r => r.abs_path)).count
          w.abs_path = 1)
    ∧ (runScan rn rid2 ws
        ⟨(runScan rn rid1 ws ⟨files0, nid0, 0, 0⟩).files,
         (runScan rn rid1 ws ⟨files0, nid0, 0, 0⟩).nextId, 0, 0⟩).files_changed = 0
    ∧ ((runScan rn rid2 ws
        ⟨(runScan rn rid1 ws ⟨files0, nid0, 0, 0⟩).files,
         (runScan rn rid1 ws ⟨files0, nid0, 0, 0⟩).nextId, 0, 0⟩).files.map
          (fun r => r.abs_path)).Nodup
    ∧ (∀ w ∈ ws,
        ((runScan rn rid2 ws
          ⟨(runScan rn rid1 ws ⟨files0, nid0, 0, 0⟩).files,
           (runScan rn rid1 ws ⟨files0, nid0, 0, 0⟩).nextId, 0, 0⟩).files.map
            (fun r => r.abs_path)).count w.abs_path = 1) := by
  have h1nodup : ((runScan rn rid1 ws ⟨files0, nid0, 0, 0⟩).files.map
      (fun r => r.abs_path)).Nodup :=
    runScan_nodup rn rid1 ws _ hdb
  have h1sel := runScan_select_walked rn rid1 ws ⟨files0, nid0, 0, 0⟩ hws
  have h2sel := runScan_select_walked rn rid2 ws
    ⟨(runScan rn rid1 ws ⟨files0, nid0, 0, 0⟩).files,
     (runScan rn rid1 ws ⟨files0, nid0, 0, 0⟩).nextId, 0, 0⟩ hws
  have h2nodup : ((runScan rn rid2 ws
      ⟨(runScan rn rid1 ws ⟨files0, nid0, 0, 0⟩).files,
       (runScan rn rid1 ws ⟨files0, nid0, 0, 0⟩).nextId, 0, 0⟩).files.map
        (fun r => r.abs_path)).Nodup :=
    runScan_nodup rn rid2 ws _ h1nodup
  refine ⟨h1nodup, ?_, ?_, h2nodup, ?_⟩
  · intro w hw
    exact List.count_eq_one_of_mem h1nodup
      (selectExisting_some_mem _ _ _ (h1sel w hw))
  · exact runScan_changed_const rn rid2 ws _ (fun w hw => h1sel w hw)
  · intro w hw
    exact List.count_eq_one_of_mem h2nodup
      (selectExisting_some_mem _ _ _ (h2sel w hw))

/-- Concrete instantiation of `scan_idempotent` on a two-file walk starting
from an empty catalog, with the hypotheses discharged. -/
theorem scan_idempotent_witness :
    (([⟨"/r/a", "a", 10, 5⟩, ⟨"/r/b", "b", 20, 6⟩] : List WalkedFile).map
        (fun w => w.abs_path)).Nodup
    ∧ (([] : List FileRecord).map (fun r => r.abs_path)).Nodup
    ∧ ((runScan "Root" 1 [⟨"/r/a", "a", 10, 5⟩, ⟨"/r/b", "b", 20, 6⟩]
          ⟨[], 0, 0, 0⟩).files.map (fun r => r.abs_path)).Nodup
    ∧ (runScan "Root" 2 [⟨"/r/a", "a", 10, 5⟩, ⟨"/r/b", "b", 20, 6⟩]
        ⟨(runScan "Root" 1 [⟨"/r/a", "a", 10, 5⟩, ⟨"/r/b", "b", 20, 6⟩]
            ⟨[], 0, 0, 0⟩).files,
         (runScan "Root" 1 [⟨"/r/a", "a", 10, 5⟩, ⟨"/r/b", "b", 20, 6⟩]
            ⟨[], 0, 0, 0⟩).nextId, 0, 0⟩).files_changed = 0 := by
  have h := scan_idempotent "Root" 1 2 [⟨"/r/a", "a", 10, 5⟩, ⟨"/r/b", "b", 20, 6⟩]
    [] 0 (by decide) (by decide)
  exact ⟨by decide, by decide, h.1, h.2.2.1⟩

/-- Claim C6: per walked file, the files-changed counter is incremented
exactly for the New (no stored row) and Changed (stored size or mtime
differs) classifications; an Unchanged file leaves the counter alone, yet
its upsert still rewrites the row, refreshing `last_seen_run_id` to the
current run (and the other observed columns to the same values). -/
theorem classify_and_refresh (rn : String) (rid : Nat) (st : ScanState) (w : WalkedFile) :
    (selectExisting st.files w.abs_path = none →
      (processFile rn rid st w).files_changed = st.files_changed + 1)
    ∧ (∀ ps pm, selectExisting st.files w.abs_path = some (ps, pm) →
        ps ≠ w.size ∨ pm ≠ w.mtime →
        (processFile rn rid st w).files_changed = st.files_changed + 1)
    ∧ (selectExisting st.files w.abs_path = some (w.size, w.mtime) →
        (processFile rn rid st w).files_changed = st.files_changed
        ∧ ∃ r, (processFile rn rid st w).files.find? (fun r => r.abs_path == w.abs_path) =
            some r
          ∧ r.last_seen_run_id = rid ∧ r.size_bytes = w.size ∧ r.mtime = w.mtime
          ∧ r.root = rn ∧ r.rel_path = w.rel_path) := by
  refine ⟨?_, ?_, ?_⟩
  · intro h
    unfold processFile
    rw [h]
  · intro ps pm h hne
    unfold processFile
    rw [h]
    simp only [if_pos hne]
  · intro h
    constructor
    · unfold processFile
      rw [h]
      simp
    · obtain ⟨r, hr, hroot, hrel, _, hsz, hmt, hrid⟩ :=
        find?_upsert_self st.files st.nextId rn w.rel_path w.abs_path w.size w.mtime rid
      exact ⟨r, by rw [processFile_files]; exact hr, hrid, hsz, hmt, hroot, hrel⟩

/-- Concrete instantiation of `classify_and_refresh`: an Unchanged file does
not bump the counter but does refresh the last-seen run id. -/
theorem classify_and_refresh_witness :
    selectExisting [⟨1, "Root", "a", "/r/a", 10, 5, none, 3⟩] "/r/a" = some (10, 5)
    ∧ ((processFile "Root" 7 ⟨[⟨1, "Root", "a", "/r/a", 10, 5, none, 3⟩], 2, 4, 0⟩
          ⟨"/r/a", "a", 10, 5⟩).files_changed = 0
       ∧ ∃ r, (processFile "Root" 7 ⟨[⟨1, "Root", "a", "/r/a", 10, 5, none, 3⟩], 2, 4, 0⟩
            ⟨"/r/a", "a", 10, 5⟩).files.find? (fun r => r.abs_path == "/r/a") = some r
          ∧ r.last_seen_run_id = 7 ∧ r.size_bytes = 10 ∧ r.mtime = 5
          ∧ r.root = "Root" ∧ r.rel_path = "a") :=
  ⟨rfl,
   (classify_and_refresh "Root" 7 ⟨[⟨1, "Root", "a", "/r/a", 10, 5, none, 3⟩], 2, 4, 0⟩
      ⟨"/r/a", "a", 10, 5⟩).2.2 rfl⟩

/-- Claim C8: when the upsert hits an existing row (a conflict on abs_path),
no new id is consumed, no row is added or removed, and row by row: the
primary key `id`, the `sha256` hash and the `abs_path` key are untouched;
the conflicting row gets exactly root, rel_path, size_bytes, mtime and
last_seen_run_id replaced by the observed values; every other row is
entirely unchanged. -/
theorem upsert_frame (db : List FileRecord) (nid : Nat) (rn rel abs : String)
    (sz mt : Int) (rid : Nat)
    (hconflict : db.any (fun r => r.abs_path == abs) = true) :
    (upsert db nid rn rel abs sz mt rid).2 = nid
    ∧ (upsert db nid rn rel abs sz mt rid).1.length = db.length
    ∧ ∀ (i : Nat) (hi : i < db.length) (hi2 : i < (upsert db nid rn rel abs sz mt rid).1.length),
        (((upsert db nid rn rel abs sz mt rid).1.get ⟨i, hi2⟩).id = (db.get ⟨i, hi⟩).id
        ∧ ((upsert db nid rn rel abs sz mt rid).1.get ⟨i, hi2⟩).sha256 =
            (db.get ⟨i, hi⟩).sha256
        ∧ ((upsert db nid rn rel abs sz mt rid).1.get ⟨i, hi2⟩).abs_path =
            (db.get ⟨i, hi⟩).abs_path)
        ∧ ((db.get ⟨i, hi⟩).abs_path = abs →
            ((upsert db nid rn rel abs sz mt rid).1.get ⟨i, hi2⟩).root = rn
            ∧ ((upsert db nid rn rel abs sz mt rid).1.get ⟨i, hi2⟩).rel_path = rel
            ∧ ((upsert db nid rn rel abs sz mt rid).1.get ⟨i, hi2⟩).size_bytes = sz
            ∧ ((upsert db nid rn rel abs sz mt rid).1.get ⟨i, hi2⟩).mtime = mt
            ∧ ((upsert db nid rn rel abs sz mt rid).1.get ⟨i, hi2⟩).last_seen_run_id = rid)
        ∧ ((db.get ⟨i, hi⟩).abs_path ≠ abs →
            (upsert db nid rn rel abs sz mt rid).1.get ⟨i, hi2⟩ = db.get ⟨i, hi⟩) := by
  have hup : (upsert db nid rn rel abs sz mt rid).1 =
      db.map (fun r => if r.abs_path == abs then updateFields rn rel sz mt rid r else r) := by
    unfold upsert
    rw [if_pos hconflict]
  refine ⟨by unfold upsert; rw [if_pos hconflict], by rw [hup, List.length_map], ?_⟩
  intro i hi hi2
  have hget : (upsert db nid rn rel abs sz mt rid).1.get ⟨i, hi2⟩ =
      (if (db.get ⟨i, hi⟩).abs_path == abs
       then updateFields rn rel sz mt rid (db.get ⟨i, hi⟩) else db.get ⟨i, hi⟩) := by
    have hm := List.getElem_map
      (fun r => if r.abs_path == abs then updateFields rn rel sz mt rid r else r)
      (l := db) (n := i) (h := by rw [List.length_map]; exact hi)
    rw [List.get_eq_getElem]
    simp only [hup]
    exact hm
  by_cases ha : ((db.get ⟨i, hi⟩).abs_path == abs) = true
  · rw [hget, if_pos ha]
    refine ⟨⟨rfl, rfl, rfl⟩, fun _ => ⟨rfl, rfl, rfl, rfl, rfl⟩, fun hne => ?_⟩
    exact absurd (beq_iff_eq.mp ha) hne
  · rw [hget, if_neg ha]
    refine ⟨⟨rfl, rfl, rfl⟩, fun heq => ?_, fun _ => rfl⟩
    exact absurd heq (by simpa using ha)

/-- Concrete instantiation of `upsert_frame` with the conflict hypothesis
discharged: id and sha256 survive the update. -/
theorem upsert_frame_witness :
    (([⟨1, "Root", "a", "/r/a", 10, 5, some "aa", 3⟩] : List FileRecord).any
        (fun r => r.abs_path == "/r/a")) = true
    ∧ (upsert [⟨1, "Root", "a", "/r/a", 10, 5, some "aa", 3⟩] 9 "Root" "a2" "/r/a" 11 6 7).2 = 9
    ∧ (upsert [⟨1, "Root", "a", "/r/a", 10, 5, some "aa", 3⟩] 9 "Root" "a2" "/r/a" 11 6 7).1.length
        = ([⟨1, "Root", "a", "/r/a", 10, 5, some "aa", 3⟩] : List FileRecord).length :=
  ⟨rfl,
   (upsert_frame [⟨1, "Root", "a", "/r/a", 10, 5, some "aa", 3⟩] 9 "Root" "a2" "/r/a" 11 6 7
      rfl).1,
   (upsert_frame [⟨1, "Root", "a", "/r/a", 10, 5, some "aa", 3⟩] 9 "Root" "a2" "/r/a" 11 6 7
      rfl).2.1⟩

/-- Claim C7: a `KeyboardInterrupt` mid-run makes the synchronizer commit the
buffered work for the files processed so far and exit with status 130 —
distinct from the success status 0 and the configuration-error status 2 —
while the scan-run row keeps a NULL finish timestamp; a configuration error
(missing database location, missing or invalid scan root) exits with status
2 before the run row is created or any file is processed. -/
theorem main_interrupt_and_config (du sr : Option String) (rn : String) (isdir : Bool)
    (walked : List WalkedFile) (k : Nat) (intr : Option Nat) (rid : Nat)
    (files0 : List FileRecord) (nid0 : Nat) :
    (du ≠ none → sr ≠ none → isdir = true →
      (mainModel du sr rn isdir walked (some k) rid files0 nid0).exit_code = 130
      ∧ (mainModel du sr rn isdir walked (some k) rid files0 nid0).exit_code ≠ 0
      ∧ (mainModel du sr rn isdir walked (some k) rid files0 nid0).exit_code ≠ 2
      ∧ (∃ row, (mainModel du sr rn isdir walked (some k) rid files0 nid0).run_row = some row
          ∧ row.finished_at = none)
      ∧ (mainModel du sr rn isdir walked (some k) rid files0 nid0).catalog =
          runScan rn rid (walked.take k) ⟨files0, nid0, 0, 0⟩)
    ∧ ((du = none ∨ sr = none ∨ isdir = false) →
      (mainModel du sr rn isdir walked intr rid files0 nid0).exit_code = 2
      ∧ (mainModel du sr rn isdir walked intr rid files0 nid0).exit_code ≠ 0
      ∧ (mainModel du sr rn isdir walked intr rid files0 nid0).exit_code ≠ 130
      ∧ (mainModel du sr rn isdir walked intr rid files0 nid0).run_row = none
      ∧ (mainModel du sr rn isdir walked intr rid files0 nid0).catalog =
          ⟨files0, nid0, 0, 0⟩) := by
  constructor
  · intro hdu hsr hdir
    have hcfg : ¬(du = none ∨ sr = none) := by
      rintro (h | h)
      · exact hdu h
      · exact hsr h
    unfold mainModel
    rw [if_neg hcfg, if_neg (by rw [hdir]; simp)]
    exact ⟨rfl, by norm_num, by norm_num, ⟨⟨rid, rn, none, none, none⟩, rfl, rfl⟩, rfl⟩
  · intro hcfg
    unfold mainModel
    rcases hcfg with h | h | h
    · rw [if_pos (Or.inl h)]
      exact ⟨rfl, by norm_num, by norm_num, rfl, rfl⟩
    · rw [if_pos (Or.inr h)]
      exact ⟨rfl, by norm_num, by norm_num, rfl, rfl⟩
    · by_cases hor : du = none ∨ sr = none
      · rw [if_pos hor]
        exact ⟨rfl, by norm_num, by norm_num, rfl, rfl⟩
      · rw [if_neg hor, if_pos h]
        exact ⟨rfl, by norm_num, by norm_num, rfl, rfl⟩

/-- Concrete instantiation of `main_interrupt_and_config` with the
hypotheses discharged: a run interrupted after one of two files. -/
theorem main_interrupt_and_config_witness :
    ((some "postgres:x" : Option String) ≠ none) ∧ ((some "/r" : Option String) ≠ none)
    ∧ (true = true)
    ∧ (mainModel (some "postgres:x") (some "/r") "Root" true
        [⟨"/r/a", "a", 10, 5⟩, ⟨"/r/b", "b", 20, 6⟩] (some 1) 4 [] 0).exit_code = 130
    ∧ (∃ row, (mainModel (some "postgres:x") (some "/r") "Root" true
        [⟨"/r/a", "a", 10, 5⟩, ⟨"/r/b", "b", 20, 6⟩] (some 1) 4 [] 0).run_row = some row
        ∧ row.finished_at = none)
    ∧ (mainModel (some "postgres:x") (some "/r") "Root" true
        [⟨"/r/a", "a", 10, 5⟩, ⟨"/r/b", "b", 20, 6⟩] (some 1) 4 [] 0).catalog =
        runScan "Root" 4 ([⟨"/r/a", "a", 10, 5⟩, ⟨"/r/b", "b", 20, 6⟩].take 1) ⟨[], 0, 0, 0⟩ := by
  have h := (main_interrupt_and_config (some "postgres:x") (some "/r") "Root" true
    [⟨"/r/a", "a", 10, 5⟩, ⟨"/r/b", "b", 20, 6⟩] 1 none 4 [] 0).1
    (by simp) (by simp) rfl
  exact ⟨by simp, by simp, rfl, h.1, h.2.2.2.1, h.2.2.2.2⟩
